import Mathlib

/-!
A verification development for the memhashd clustered in-memory key-value
store.  The Go source is embedded shallowly: every Go function used by the
properties below is translated into an executable Lean definition, machine
integers become `Int`/`Nat` (with explicit reduction modulo `2 ^ 32` where
the 32-bit FNV arithmetic overflows), `time.Time` and `time.Duration`
become `Int` instants/durations in nanoseconds passed explicitly, Go maps
become association lists, and Go panics become `Option`/`none` results.
The dynamic `interface{}` payload of a record is modelled by the tagged
universe `Data` of storable values (scalars, ordered sequences, and typed
mappings), mirroring the JSON values the adapters feed into the store.
-/

namespace Memhashd

/-! ## Tagged data universe for `interface{}` payloads (package hash) -/

/-- Runtime type tags for scalar values, standing in for Go reflect kinds. -/
inductive VTy where
  | int
  | str
  | bool
deriving DecidableEq, Repr

/-- A scalar value stored in a record or used as a dictionary key. -/
inductive Value where
  | vInt (n : Int)
  | vStr (s : String)
  | vBool (b : Bool)
deriving DecidableEq, Repr

/-- The Go reflect kind of a scalar value. -/
def Value.ty : Value → VTy
  | .vInt _ => .int
  | .vStr _ => .str
  | .vBool _ => .bool

/-- Rendering of a scalar the way Go fmt verb %v prints it. -/
def Value.fmtV : Value → String
  | .vInt n => toString n
  | .vStr s => s
  | .vBool b => if b then "true" else "false"

/-- A record payload: the empty datum (a nil `interface{}`, e.g. a JSON
null stored through the REST adapter), a scalar, an ordered sequence, or
a mapping whose keys all have the reflect kind `kt` (Go maps are
homogeneously keyed). -/
inductive Data where
  | null
  | val (v : Value)
  | list (l : List Value)
  | dict (kt : VTy) (entries : List (Value × Value))
deriving DecidableEq, Repr

/-! ## Record metadata (container/hash, part of package hash) -/

/-- Metadata of a hash record: `Meta` from the hash package.  Times are
integer nanosecond instants, `ExpireTime` is an integer nanosecond
duration (at most zero means permanent), `Index` is the version counter. -/
structure Meta where
  Index : Int
  ExpireTime : Int
  AccessedAt : Int
  CreatedAt : Int
  UpdatedAt : Int
deriving DecidableEq, Repr

/-- A record of the hash table: metadata plus payload. -/
structure Record where
  meta : Meta
  data : Data
deriving DecidableEq, Repr

/-- IsPermanent returns true when the expiration time is at most zero. -/
def Record.IsPermanent (r : Record) : Bool :=
  decide (r.meta.ExpireTime ≤ 0)

/-- IsExpired at instant `now`: false for permanent records, otherwise
true when the record has lived longer than its expire time
(`now - CreatedAt > ExpireTime`). -/
def Record.IsExpired (r : Record) (now : Int) : Bool :=
  if r.IsPermanent then false
  else decide (now - r.meta.CreatedAt > r.meta.ExpireTime)

/-- ExpiresAt: the future instant when the record expires,
`CreatedAt + ExpireTime`. -/
def Record.ExpiresAt (r : Record) : Int :=
  r.meta.CreatedAt + r.meta.ExpireTime

/-! ## Go map primitives as association lists -/

/-- Lookup in a Go map modelled as an association list. -/
def mapLookup (m : List (String × Record)) (k : String) : Option Record :=
  match m with
  | [] => none
  | (k', v) :: rest => if k' = k then some v else mapLookup rest k

/-- Go map assignment `m[k] = v`: replace in place, or add the key. -/
def mapInsert (m : List (String × Record)) (k : String) (v : Record) :
    List (String × Record) :=
  match m with
  | [] => [(k, v)]
  | (k', v') :: rest =>
      if k' = k then (k', v) :: rest else (k', v') :: mapInsert rest k v

/-- Go `delete(m, k)`: remove the key when present, otherwise no-op. -/
def mapErase (m : List (String × Record)) (k : String) :
    List (String × Record) :=
  match m with
  | [] => []
  | (k', v') :: rest =>
      if k' = k then rest else (k', v') :: mapErase rest k

/-! ## The unsynchronized hash store (package hash, unsafeHash) -/

/-- State of `unsafeHash`: the record map, the cached key sequence, and
the dirty flag. -/
structure UnsafeHash where
  records : List (String × Record)
  keys : List String
  dirty : Bool
deriving DecidableEq, Repr

/-- newUnsafeHash: empty map, empty key cache, clean. -/
def newUnsafeHash : UnsafeHash :=
  { records := [], keys := [], dirty := false }

/-- Keys: when clean, return the cached sequence unchanged; when dirty,
rebuild the cache by draining the map, clear the dirty flag. -/
def UnsafeHash.Keys (h : UnsafeHash) : List String × UnsafeHash :=
  if !h.dirty then (h.keys, h)
  else
    let ks := h.records.map Prod.fst
    (ks, { h with keys := ks, dirty := false })

/-- Load: fetch the record by value from the map; on presence set
`AccessedAt := now` on the returned copy.  The Go method reads
`h.records[key]` into a local copy and never writes the map back, so the
state is unchanged and the function is pure. -/
def UnsafeHash.Load (h : UnsafeHash) (key : String) (now : Int) :
    Option Record :=
  match mapLookup h.records key with
  | none => none
  | some rec => some { rec with meta := { rec.meta with AccessedAt := now } }

/-- Store: take the previous record, or a fresh one with
`CreatedAt = now` and everything else zero (a nil `Data`), when the key
is absent; append the key to the cached sequence whenever the cache is
not dirty; then bump `Index`, set `UpdatedAt := now`, overwrite
`ExpireTime` and `Data`, and write the record back.  Returns the stored
record. -/
def UnsafeHash.Store (h : UnsafeHash) (key : String) (rec : Record)
    (now : Int) : Record × UnsafeHash :=
  let prevrec : Record :=
    match mapLookup h.records key with
    | some r => r
    | none =>
        { meta := { Index := 0, ExpireTime := 0, AccessedAt := 0,
                    CreatedAt := now, UpdatedAt := 0 },
          data := .null }
  let keys' := if !h.dirty then h.keys ++ [key] else h.keys
  let newrec : Record :=
    { meta := { prevrec.meta with
                  Index := prevrec.meta.Index + 1,
                  UpdatedAt := now,
                  ExpireTime := rec.meta.ExpireTime },
      data := rec.data }
  (newrec, { h with records := mapInsert h.records key newrec,
                    keys := keys' })

/-- Delete: set the dirty flag only when the key is present, then remove
the key from the map.  The cached key sequence is left as is. -/
def UnsafeHash.Delete (h : UnsafeHash) (key : String) : UnsafeHash :=
  let dirty' := if (mapLookup h.records key).isSome then true else h.dirty
  { records := mapErase h.records key, keys := h.keys, dirty := dirty' }

/-! ## TTL heap (container/store, timeHeap) -/

/-- An element of the time-ordered heap: a firing instant and the key it
was scheduled for (the `Data interface{}` field always carries the key
string at its single call site). -/
structure TimeHeapElem where
  time : Int
  dkey : String
deriving DecidableEq, Repr

/-- Swap the elements at positions `i` and `j` of a list (the heap's
`Swap` method); out-of-range indices leave the list unchanged. -/
def listSwap (l : List TimeHeapElem) (i j : Nat) : List TimeHeapElem :=
  match l.get? i, l.get? j with
  | some x, some y => (l.set i y).set j x
  | _, _ => l

/-- The sift-up pass of Go container/heap `Push`: while the element at
`j` is `Less` than its parent (`timeHeap.Less` is strict `Time.Before`),
swap them and continue from the parent. -/
def siftUp (arr : List TimeHeapElem) (j : Nat) : List TimeHeapElem :=
  if hj : j = 0 then arr
  else
    let i := (j - 1) / 2
    match arr.get? j, arr.get? i with
    | some xj, some xi =>
        if xj.time < xi.time then siftUp (listSwap arr i j) i else arr
    | _, _ => arr
termination_by j
decreasing_by simp_wf; omega

/-- container/heap `Push` on the time heap: append, then sift up from the
last position. -/
def heapPush (arr : List TimeHeapElem) (x : TimeHeapElem) :
    List TimeHeapElem :=
  siftUp (arr ++ [x]) arr.length

/-- timeHeap `Peek`: the element at the END of the backing array when the
heap is non-empty, `none` (Go: nil) when it is empty.  Note this is the
last array slot, not index 0 where container/heap keeps the minimum. -/
def timeHeapPeek (arr : List TimeHeapElem) : Option TimeHeapElem :=
  arr.getLast?

/-! ## The locked shard (container/store, store) -/

/-- Shard state: the hash map and the expiration heap's backing array.
The refreshable timer holds no data the properties below depend on; the
cutoff handed to `expireTimer.AfterFunc` by `Store` is returned
explicitly instead. -/
structure StoreState where
  hashMap : UnsafeHash
  expireHeap : List TimeHeapElem
deriving DecidableEq, Repr

/-- newStore: an empty hash map and an empty expiration heap. -/
def newStore : StoreState :=
  { hashMap := newUnsafeHash, expireHeap := [] }

/-- Shard Keys: take the lock and delegate to the hash map. -/
def StoreState.Keys (s : StoreState) : List String × StoreState :=
  let (ks, h') := s.hashMap.Keys
  (ks, { s with hashMap := h' })

/-- Shard Load: delegate to the hash map; when the record is present but
expired, delete the key and report not-present (lazy expiry). -/
def StoreState.Load (s : StoreState) (key : String) (now : Int) :
    Option Record × StoreState :=
  match s.hashMap.Load key now with
  | none => (none, s)
  | some rec =>
      if rec.IsExpired now then
        (none, { s with hashMap := s.hashMap.Delete key })
      else (some rec, s)

/-- Shard Store: delegate to the hash map; for a non-permanent stored
record, push `(ExpiresAt, key)` onto the heap and hand the cutoff
`rec.ExpiresAt()` to the refreshable timer.  The middle component is the
cutoff passed to `expireTimer.AfterFunc` (`none` when the record is
permanent and no timer is scheduled). -/
def StoreState.Store (s : StoreState) (key : String) (rec : Record)
    (now : Int) : Record × Option Int × StoreState :=
  let (rec', h') := s.hashMap.Store key rec now
  if rec'.IsPermanent then (rec', none, { s with hashMap := h' })
  else
    let cutoff := rec'.ExpiresAt
    (rec', some cutoff,
     { hashMap := h',
       expireHeap := heapPush s.expireHeap { time := cutoff, dkey := key } })

/-- The loop body of `DeleteExpiredKeys`: peek the heap (the last array
slot); stop when the heap is empty or the peeked time is after the
cutoff; otherwise delete the peeked key from the hash map, pop the last
array slot, and continue. -/
def deleteExpiredLoop (hm : UnsafeHash) (arr : List TimeHeapElem)
    (cutoff : Int) : UnsafeHash × List TimeHeapElem :=
  match harr : timeHeapPeek arr with
  | none => (hm, arr)
  | some next =>
      if next.time > cutoff then (hm, arr)
      else deleteExpiredLoop (hm.Delete next.dkey) arr.dropLast cutoff
termination_by arr.length
decreasing_by
  have hne : arr ≠ [] := by
    intro hnil
    rw [hnil] at harr
    simp [timeHeapPeek] at harr
  have hpos : 0 < arr.length := List.length_pos.mpr hne
  have hdl : arr.dropLast.length = arr.length - 1 := List.length_dropLast arr
  simp_wf
  omega

/-- Shard `DeleteExpiredKeys(cutoff)`: run the purge loop under the
lock. -/
def StoreState.DeleteExpiredKeys (s : StoreState) (cutoff : Int) :
    StoreState :=
  let (hm, arr) := deleteExpiredLoop s.hashMap s.expireHeap cutoff
  { hashMap := hm, expireHeap := arr }

/-- Shard Delete: take the lock and delegate to the hash map. -/
def StoreState.Delete (s : StoreState) (key : String) : StoreState :=
  { s with hashMap := s.hashMap.Delete key }

/-! ## Typed requests (container/store, request.go) -/

/-- The error taxonomy of the store package: ErrMissing, ErrConflict and
ErrInternal, each wrapping a message text. -/
inductive StoreErr where
  | errMissing (text : String)
  | errConflict (text : String)
  | errInternal (text : String)
deriving DecidableEq, Repr

/-- First-match lookup among the entries of a stored mapping, the effect
of reflect `MapIndex` once the key type is known to fit (`none` stands
for the invalid `reflect.Value` of an absent key). -/
def entriesLookup : List (Value × Value) → Value → Option Value
  | [], _ => none
  | (k, v) :: rest, key => if k = key then some v else entriesLookup rest key

/-- `RequestDictItem.mapIndex`: reflect `MapIndex` panics when the item's
type is not assignable to the mapping's key type; the method recovers
that panic into an error (`Except.error`).  Otherwise it returns the
possibly-invalid value at the key. -/
def RequestDictItem.mapIndex (kt : VTy) (entries : List (Value × Value))
    (key : Value) : Except Unit (Option Value) :=
  if key.ty = kt then .ok (entriesLookup entries key) else .error ()

/-- `RequestDictItem.Process`, executed against the shard as `Serve`
does: load the key (shard load, with lazy expiry); missing → ErrMissing;
a nil payload makes `reflect.TypeOf(rec.Data).Kind()` a method call on a
nil interface — a Go panic, modelled as `none`; any other non-mapping
payload → ErrConflict "(key) is not a dictionary"; a recovered lookup
panic → ErrConflict "item (item) is invalid"; an absent item →
ErrInternal "unexpected value at key (item)"; otherwise the mapped value
replaces `Data` in the loaded record. -/
def RequestDictItem.Process (s : StoreState) (rkey : String) (item : Value)
    (now : Int) : Option (Except StoreErr Record × StoreState) :=
  match s.Load rkey now with
  | (none, s') =>
      some (.error (.errMissing (rkey ++ " does not exist")), s')
  | (some rec, s') =>
      match rec.data with
      | .null => none
      | .dict kt entries =>
          match RequestDictItem.mapIndex kt entries item with
          | .error _ =>
              some (.error (.errConflict ("item " ++ item.fmtV ++
                " is invalid")), s')
          | .ok none =>
              some (.error (.errInternal ("unexpected value at key " ++
                item.fmtV)), s')
          | .ok (some v) => some (.ok { rec with data := .val v }, s')
      | _ =>
          some (.error (.errConflict (rkey ++ " is not a dictionary")), s')

/-! ## FNV hashing and the consistent-hashing ring (container/ring) -/

/-- The 32-bit FNV prime. -/
def prime32 : Nat := 16777619

/-- The 32-bit FNV offset basis. -/
def offset32 : Nat := 2166136261

/-- One byte step of Go `fnv.New32().Write`: multiply by the prime
modulo `2 ^ 32`, then XOR the byte (the FNV-1 order). -/
def fnvStep (s c : Nat) : Nat :=
  ((s * prime32) % 2 ^ 32) ^^^ c

/-- `fnvSum32`: run the Go `hash/fnv` 32-bit digest (`fnv.New32`) over a
byte sequence starting from the offset basis. -/
def fnvSum32 (bs : List Nat) : Nat :=
  bs.foldl fnvStep offset32

/-- The UTF-8 encoding of one code point, as Go `[]byte(string)`
produces it. -/
def utf8EncodeChar (n : Nat) : List Nat :=
  if n < 0x80 then [n]
  else if n < 0x800 then
    [0xC0 ||| (n >>> 6), 0x80 ||| (n &&& 0x3F)]
  else if n < 0x10000 then
    [0xE0 ||| (n >>> 12), 0x80 ||| ((n >>> 6) &&& 0x3F),
     0x80 ||| (n &&& 0x3F)]
  else
    [0xF0 ||| (n >>> 18), 0x80 ||| ((n >>> 12) &&& 0x3F),
     0x80 ||| ((n >>> 6) &&& 0x3F), 0x80 ||| (n &&& 0x3F)]

/-- The UTF-8 bytes of a string. -/
def stringBytes (s : String) : List Nat :=
  s.data.bind fun c => utf8EncodeChar c.toNat

/-- `StringHasher.Hash`: the Go FNV checksum of the string's bytes. -/
def StringHasher.Hash (s : String) : Nat :=
  fnvSum32 (stringBytes s)

/-- The FNV-1 digest written as plain recursion (multiply by the prime,
then XOR each byte), for cross-checking the embedded Go loop. -/
def fnv1Run (acc : Nat) : List Nat → Nat
  | [] => acc
  | c :: rest => fnv1Run (((acc * prime32) % 2 ^ 32) ^^^ c) rest

/-- The 32-bit FNV-1 hash of a string. -/
def fnv1String (s : String) : Nat :=
  fnv1Run offset32 (stringBytes s)

/-- Modelled from the spec: the 32-bit FNV-1a hash ("FNV-1a 32-bit
(`fnv32` over UTF-8 bytes)"), which XORs the byte first and multiplies
by the prime afterwards.  The ring source instead instantiates
`fnv.New32()`, the FNV-1 digest. -/
def fnv1aString (s : String) : Nat :=
  (stringBytes s).foldl (fun acc c => ((acc ^^^ c) * prime32) % 2 ^ 32)
    offset32

/-- Ring state: the partition count (source field `ratio`, a uint32 kept
positive by the constructor), the virtual partition table, and the
inserted elements' values (the cluster server stores node indices in
them). -/
structure RingState where
  numPartitions : Nat
  virtual : List Nat
  elements : List Nat
deriving DecidableEq, Repr

/-- newRing: panics (`none`) when the partition count is zero, otherwise
a zeroed virtual table of that length and no elements. -/
def newRing (p : Nat) : Option RingState :=
  if p = 0 then none
  else some { numPartitions := p, virtual := List.replicate p 0,
              elements := [] }

/-- repartition: assign `virtual[i] = i % num` for every slot.  When the
table is non-empty and the element count is zero, the first iteration is
an integer division by zero — a Go panic, hence `none`. -/
def RingState.repartition (r : RingState) : Option RingState :=
  let num := r.elements.length
  if r.virtual.isEmpty then some r
  else if num = 0 then none
  else some { r with virtual := (List.range r.virtual.length).map (· % num) }

/-- Ring Insert: append the element and repartition. -/
def RingState.Insert (r : RingState) (e : Nat) : Option RingState :=
  RingState.repartition { r with elements := r.elements ++ [e] }

/-- Remove the first element with a matching value, then stop scanning. -/
def removeFirst : List Nat → Nat → List Nat
  | [], _ => []
  | x :: rest, e => if x = e then rest else x :: removeFirst rest e

/-- Ring Remove: drop the first element whose value matches, then
repartition. -/
def RingState.Remove (r : RingState) (e : Nat) : Option RingState :=
  RingState.repartition { r with elements := removeFirst r.elements e }

/-- Ring Find: `elements[virtual[hash % ratio]]`.  Any out-of-range index
(and the modulo with a zero ratio) is a Go panic, hence `none`. -/
def RingState.Find (r : RingState) (hsh : Nat) : Option Nat :=
  if r.numPartitions = 0 then none
  else
    (r.virtual.get? (hsh % r.numPartitions)).bind fun element =>
      r.elements.get? element

/-! ## Cluster server routing (server/server.go, Do) -/

/-- A cluster node as routing sees it: its address and whether a live
connection to it exists (`Conn != nil`; the self node has none). -/
structure SrvNode where
  addr : String
  hasConn : Bool
deriving DecidableEq, Repr

/-- The routing-relevant server state: the local address, the sorted node
list, and the ring whose elements hold node indices. -/
structure ServerState where
  laddr : String
  nodes : List SrvNode
  sring : RingState
deriving DecidableEq, Repr

/-- The two ways `Do` disposes of a request, with the node descriptor the
returned Response carries in each: a local execution against this node's
shard answers with `Response{Record: rec, Node: *node, ...}` for the
ring-selected `node`, and a redirect round-trips to that node. -/
inductive DoResult where
  | localExec (node : SrvNode)
  | redirect (node : SrvNode)
deriving DecidableEq, Repr

/-- The routing logic of `server.Do`: find the ring element for the FNV
hash of `req.Hash()`, take the node at that index, and execute locally
when the node has no connection or the request hash is empty, otherwise
redirect.  `none` models the panics of a failed `Find`, index or type
assertion. -/
def ServerState.Do (s : ServerState) (reqHash : String) : Option DoResult :=
  (s.sring.Find (StringHasher.Hash reqHash)).bind fun elemVal =>
    (s.nodes.get? elemVal).map fun node =>
      if !node.hasConn || reqHash == "" then .localExec node
      else .redirect node

/-! ## Concrete states used by the evaluation theorems -/

/-- A record argument for `Store` calls: only `Data` and
`Meta.ExpireTime` of the argument are read by the hash store. -/
def mkRec (d : Int) (exp : Int) : Record :=
  { meta := { Index := 0, ExpireTime := exp, AccessedAt := 0,
              CreatedAt := 0, UpdatedAt := 0 },
    data := .val (.vInt d) }

/-- The hash after two Stores to the same key "a" with no Delete. -/
def c1Hash : UnsafeHash :=
  ((newUnsafeHash.Store "a" (mkRec 1 0) 0).2.Store "a" (mkRec 2 0) 1).2

/-- A shard that stored key "a" with expiry 5 at instant 0 and then
re-stored it as permanent at instant 1; the heap entry survives. -/
def c2Store : StoreState :=
  ((newStore.Store "a" (mkRec 1 5) 0).2.2.Store "a" (mkRec 2 0) 1).2.2

/-- A two-node server: the self node at index 0 (no connection) and a
connected peer at index 1, with a two-partition ring over both. -/
def c3Server : ServerState :=
  { laddr := "10.0.0.1:5555",
    nodes := [{ addr := "10.0.0.1:5555", hasConn := false },
              { addr := "10.0.0.2:5555", hasConn := true }],
    sring := { numPartitions := 2, virtual := [0, 1], elements := [0, 1] } }

/-- The hash after a single Store of key "a" at instant 1. -/
def c5Hash : UnsafeHash :=
  (newUnsafeHash.Store "a" (mkRec 1 0) 1).2

/-- The record stored under "a" in `c2Store`: permanent after the
re-store. -/
def c2Rec : Record :=
  { meta := { Index := 2, ExpireTime := 0, AccessedAt := 0,
              CreatedAt := 0, UpdatedAt := 1 },
    data := .val (.vInt 2) }

/-- A sequence of Stores to one key: the fold of `Store` over the given
(record argument, instant) pairs. -/
def storeSeq (h : UnsafeHash) (key : String) :
    List (Record × Int) → UnsafeHash
  | [] => h
  | (r, t) :: rest => storeSeq (h.Store key r t).2 key rest

/-- The `Index` of the record at a key, zero when the key is absent. -/
def recIndexAt (h : UnsafeHash) (key : String) : Int :=
  match mapLookup h.records key with
  | some r => r.meta.Index
  | none => 0

/-- One operation of the hash-store interface. -/
inductive HOp where
  | opStore (key : String) (rec : Record) (now : Int)
  | opLoad (key : String) (now : Int)
  | opDelete (key : String)
  | opKeys
deriving Repr

/-- Apply one interface operation to a hash state (Load leaves the state
unchanged, see `UnsafeHash.Load`). -/
def applyHOp (h : UnsafeHash) : HOp → UnsafeHash
  | .opStore k r t => (h.Store k r t).2
  | .opLoad _ _ => h
  | .opDelete k => h.Delete k
  | .opKeys => h.Keys.2

/-- Run a sequence of interface operations from the fresh hash. -/
def runHOps (ops : List HOp) : UnsafeHash :=
  ops.foldl applyHOp newUnsafeHash

/-- A shard holding a dictionary at "M", a scalar at "L" and a list at
"S", all permanent. -/
def c8Store : StoreState :=
  (((newStore.Store "M"
        { meta := (mkRec 0 0).meta,
          data := .dict .int [(.vInt 3, .vInt 4)] } 0).2.2.Store "L"
      (mkRec 3 0) 0).2.2.Store "S"
    { meta := (mkRec 0 0).meta, data := .list [.vInt 1] } 0).2.2

/-- The record `c8Store.Load "M" 1` returns. -/
def c8RecM : Record :=
  { meta := { Index := 1, ExpireTime := 0, AccessedAt := 1,
              CreatedAt := 0, UpdatedAt := 0 },
    data := .dict .int [(.vInt 3, .vInt 4)] }

/-- The record `c8Store.Load "L" 1` returns. -/
def c8RecL : Record :=
  { meta := { Index := 1, ExpireTime := 0, AccessedAt := 1,
              CreatedAt := 0, UpdatedAt := 0 },
    data := .val (.vInt 3) }

/-- The record `c8Store.Load "S" 1` returns. -/
def c8RecS : Record :=
  { meta := { Index := 1, ExpireTime := 0, AccessedAt := 1,
              CreatedAt := 0, UpdatedAt := 0 },
    data := .list [.vInt 1] }

/-- A shard holding the empty (nil) datum at "N", as a `PUT` with body
`{"data": null}` stores it. -/
def c8nStore : StoreState :=
  (newStore.Store "N" { meta := (mkRec 0 0).meta, data := .null } 0).2.2

/-- The record `c8nStore.Load "N" 1` returns. -/
def c8RecN : Record :=
  { meta := { Index := 1, ExpireTime := 0, AccessedAt := 1,
              CreatedAt := 0, UpdatedAt := 0 },
    data := .null }

/-- A shard holding the permanent key "k", created at instant 0. -/
def c10Store : StoreState :=
  (newStore.Store "k" (mkRec 1 0) 0).2.2

/-- The record `c10Store` holds under "k". -/
def c10Rec : Record :=
  { meta := { Index := 1, ExpireTime := 0, AccessedAt := 0,
              CreatedAt := 0, UpdatedAt := 0 },
    data := .val (.vInt 1) }

/-! ## Association-list lemmas -/

theorem mapLookup_mapInsert (m : List (String × Record)) (k k' : String)
    (v : Record) :
    mapLookup (mapInsert m k v) k' =
      if k = k' then some v else mapLookup m k' := by
  induction m with
  | nil => by_cases h : k = k' <;> simp [mapInsert, mapLookup, h]
  | cons hd tl ih =>
      obtain ⟨k0, v0⟩ := hd
      by_cases h0 : k0 = k
      · subst h0
        by_cases h : k0 = k' <;> simp [mapInsert, mapLookup, h]
      · simp only [mapInsert, if_neg h0]
        by_cases h : k0 = k'
        · subst h
          have : ¬ k = k0 := fun hk => h0 hk.symm
          simp [mapLookup, this]
        · simp [mapLookup, h, ih]

theorem mapLookup_mapInsert_self (m : List (String × Record)) (k : String)
    (v : Record) : mapLookup (mapInsert m k v) k = some v := by
  simp [mapLookup_mapInsert]

theorem mapLookup_mem (m : List (String × Record)) (k : String)
    (r : Record) : mapLookup m k = some r → (k, r) ∈ m := by
  induction m with
  | nil => simp [mapLookup]
  | cons hd tl ih =>
      obtain ⟨k0, v0⟩ := hd
      by_cases h : k0 = k
      · subst h
        intro hl
        simp only [mapLookup, if_pos rfl] at hl
        have hv : v0 = r := Option.some.inj hl
        subst hv
        exact List.mem_cons_self _ _
      · intro hl
        simp only [mapLookup, if_neg h] at hl
        exact List.mem_cons_of_mem _ (ih hl)

theorem mem_mapInsert (m : List (String × Record)) (k : String)
    (v : Record) (kv : String × Record) :
    kv ∈ mapInsert m k v → kv ∈ m ∨ kv = (k, v) := by
  induction m with
  | nil => simp [mapInsert]
  | cons hd tl ih =>
      obtain ⟨k0, v0⟩ := hd
      by_cases h : k0 = k
      · subst h
        simp only [mapInsert, if_pos rfl]
        intro hh
        rcases List.mem_cons.mp hh with h1 | h1
        · exact Or.inr h1
        · exact Or.inl (List.mem_cons_of_mem _ h1)
      · simp only [mapInsert, if_neg h]
        intro hh
        rcases List.mem_cons.mp hh with h1 | h1
        · exact Or.inl (List.mem_cons.mpr (Or.inl h1))
        · rcases ih h1 with h2 | h2
          · exact Or.inl (List.mem_cons_of_mem _ h2)
          · exact Or.inr h2

theorem mem_mapErase (m : List (String × Record)) (k : String)
    (kv : String × Record) : kv ∈ mapErase m k → kv ∈ m := by
  induction m with
  | nil => simp [mapErase]
  | cons hd tl ih =>
      obtain ⟨k0, v0⟩ := hd
      by_cases h : k0 = k
      · subst h
        simp only [mapErase, if_pos rfl]
        exact fun hh => List.mem_cons_of_mem _ hh
      · simp only [mapErase, if_neg h]
        intro hh
        rcases List.mem_cons.mp hh with h1 | h1
        · exact List.mem_cons.mpr (Or.inl h1)
        · exact List.mem_cons_of_mem _ (ih h1)

/-! ## Small evaluation lemmas for the heap -/

theorem siftUp_zero (arr : List TimeHeapElem) : siftUp arr 0 = arr := by
  simp [siftUp]

theorem heapPush_nil (x : TimeHeapElem) : heapPush [] x = [x] := by
  simp [heapPush, siftUp_zero]

/-! ## Claims -/

/-- Claim C1: the spec states the key-cache invariant — with the dirty
flag clear, `Keys()` equals the set of map keys with no duplicates,
because `Store` appends the key only when it was absent.  The code
appends the key on every non-dirty `Store`, present or not: after two
Stores of "a" with no Delete the cache (and `Keys()`) holds "a" twice
while the map holds one key.  This theorem evaluates the code at that
failing input. -/
theorem claim_C1_bug :
    c1Hash.dirty = false ∧
    c1Hash.Keys.1 = ["a", "a"] ∧
    c1Hash.records.map Prod.fst = ["a"] :=
  ⟨rfl, rfl, rfl⟩

theorem c2Store_eq :
    c2Store =
      { hashMap := { records := [("a", c2Rec)], keys := ["a", "a"],
                     dirty := false },
        expireHeap := [{ time := 5, dkey := "a" }] } := by
  simp [c2Store, newStore, StoreState.Store, UnsafeHash.Store,
        newUnsafeHash, mapLookup, mapInsert, mkRec, Record.IsPermanent,
        Record.ExpiresAt, heapPush_nil, c2Rec]

/-- Claim C2: the spec states that the expiry sweep examines the
minimum-time heap entry and deletes a key only while the entry still
corresponds to a live, expired record, filtering stale entries out
without deleting the key.  The code has no such filter: the stale heap
entry left by the first Store of "a" makes `DeleteExpiredKeys` delete
the key even though it now holds a live permanent record (which the
ExpireTime documentation promises is never evicted).  This theorem
evaluates the code at that failing input. -/
theorem claim_C2_bug :
    (mapLookup c2Store.hashMap.records "a").map Record.IsPermanent =
      some true ∧
    c2Store.expireHeap = [{ time := 5, dkey := "a" }] ∧
    mapLookup ((c2Store.DeleteExpiredKeys 10).hashMap.records) "a" =
      none := by
  refine ⟨by rw [c2Store_eq]; rfl, by rw [c2Store_eq], ?_⟩
  rw [c2Store_eq]
  simp [StoreState.DeleteExpiredKeys, deleteExpiredLoop, timeHeapPeek,
        UnsafeHash.Delete, mapLookup, mapErase, c2Rec]

/-- Claim C3: the spec states that a request with an empty hash executes
locally and its Response carries the self-Node descriptor regardless of
the ring's choice.  The code does execute locally, but fills
`Response.Node` with the ring-selected node: with two nodes and two
partitions the empty hash (FNV of "" is odd) selects the remote peer,
whose descriptor is returned although this node processed the request —
contradicting the `Response.Node` documentation.  This theorem evaluates
the code at that failing input. -/
theorem claim_C3_bug :
    (((newRing 2).bind fun r => r.Insert 0).bind fun r => r.Insert 1) =
      some c3Server.sring ∧
    c3Server.nodes.get? 0 =
      some { addr := c3Server.laddr, hasConn := false } ∧
    c3Server.Do "" =
      some (.localExec { addr := "10.0.0.2:5555", hasConn := true }) ∧
    "10.0.0.2:5555" ≠ c3Server.laddr := by
  refine ⟨by decide, by decide, by decide, by decide⟩

/-- Claim C4 counterexample: `StringHasher.Hash` is not the FNV-1a
digest — the two differ already on the one-byte string "a". -/
theorem claim_C4_cex : StringHasher.Hash "a" ≠ fnv1aString "a" := by
  decide

/-- Claim C4, amended: for every string, `StringHasher.Hash` equals the
32-bit FNV-1 hash (multiply by the prime, then XOR each byte) of its
UTF-8 bytes — the plain FNV-1 digest, not FNV-1a. -/
theorem claim_C4 (s : String) : StringHasher.Hash s = fnv1String s := by
  suffices hgen : ∀ (bs : List Nat) (acc : Nat),
      bs.foldl fnvStep acc = fnv1Run acc bs by
    simpa [StringHasher.Hash, fnvSum32, fnv1String] using
      hgen (stringBytes s) offset32
  intro bs
  induction bs with
  | nil => intro acc; rfl
  | cons c rest ih => intro acc; simp [List.foldl, fnv1Run, fnvStep, ih]

/-- Claim C5 counterexample: after `Store("a", ...)` at instant 1 the
stored access time is 0; a `Load` at instant 3 returns the copy with
`AccessedAt = 3`, yet the record kept in the map still carries
`AccessedAt = 0` (also observable through the record a later `Store`
returns), so the access time is not written to the stored record. -/
theorem claim_C5_cex :
    ((c5Hash.Load "a" 3).map fun r => r.meta.AccessedAt) = some 3 ∧
    ((mapLookup c5Hash.records "a").map fun r => r.meta.AccessedAt) =
      some 0 ∧
    (c5Hash.Store "a" (mkRec 2 0) 5).1.meta.AccessedAt = 0 :=
  ⟨rfl, rfl, rfl⟩

/-- Claim C5, amended: `Load(key)`, when the key is present, returns the
stored record by copy with `AccessedAt = now` set on the returned copy
only; the record kept in the map is unchanged (the Go method never
writes the map), so a later observer does not see the earlier Load's
access time. -/
theorem claim_C5 (h : UnsafeHash) (key : String) (now : Int)
    (rec : Record) (hl : h.Load key now = some rec) :
    ∃ r0, mapLookup h.records key = some r0 ∧
      rec = { r0 with meta := { r0.meta with AccessedAt := now } } := by
  unfold UnsafeHash.Load at hl
  cases hm : mapLookup h.records key with
  | none => rw [hm] at hl; exact absurd hl (by simp)
  | some r0 =>
      rw [hm] at hl
      exact ⟨r0, rfl, (Option.some.inj hl).symm⟩

/-- Witness for the amended C5 at a concrete store and instant. -/
theorem claim_C5_witness :
    ∃ r0, mapLookup c5Hash.records "a" = some r0 ∧
      { meta := { Index := 1, ExpireTime := 0, AccessedAt := 3,
                  CreatedAt := 1, UpdatedAt := 1 },
        data := Data.val (.vInt 1) } =
        { r0 with meta := { r0.meta with AccessedAt := 3 } } :=
  claim_C5 c5Hash "a" 3 _ rfl

/-- Claim C6: a key stored (created) at instant `t` with a positive
expire time `d` is reported not-present by any shard `Load` at an
instant `t'` with `t' - t > d`: the lookup finds the record, the lazy
expiry check fires, and the key is deleted on the spot. -/
theorem claim_C6 (s : StoreState) (key : String) (rec : Record)
    (t t' : Int) (habs : mapLookup s.hashMap.records key = none)
    (hd : 0 < rec.meta.ExpireTime)
    (ht : rec.meta.ExpireTime < t' - t) :
    ((s.Store key rec t).2.2.Load key t').1 = none := by
  have hperm : decide (rec.meta.ExpireTime ≤ 0) = false :=
    decide_eq_false (by omega)
  have hexp : decide (t' - t > rec.meta.ExpireTime) = true :=
    decide_eq_true (by omega)
  simp only [StoreState.Store, UnsafeHash.Store, habs,
             Record.IsPermanent, hperm, Bool.false_eq_true, if_false,
             StoreState.Load, UnsafeHash.Load, mapLookup_mapInsert_self,
             Record.IsExpired, hexp, if_true]

/-- Witness for C6: store "k" with expire time 5 at instant 0, load at
instant 6. -/
theorem claim_C6_witness :
    ((newStore.Store "k" (mkRec 7 5) 0).2.2.Load "k" 6).1 = none :=
  claim_C6 newStore "k" (mkRec 7 5) 0 6 rfl (by decide) (by decide)

/-! ## Lemmas for the Index counter (claim C7) -/

theorem store_recIndexAt (h : UnsafeHash) (key : String) (rec : Record)
    (now : Int) :
    recIndexAt (h.Store key rec now).2 key = recIndexAt h key + 1 := by
  unfold recIndexAt UnsafeHash.Store
  cases hm : mapLookup h.records key <;>
    simp [hm, mapLookup_mapInsert_self]

theorem storeSeq_recIndexAt (key : String) (l : List (Record × Int)) :
    ∀ h : UnsafeHash,
      recIndexAt (storeSeq h key l) key = recIndexAt h key + l.length := by
  induction l with
  | nil => intro h; simp [storeSeq]
  | cons p rest ih =>
      intro h
      obtain ⟨r, t⟩ := p
      rw [storeSeq, ih, store_recIndexAt]
      simp only [List.length_cons]
      push_cast
      ring

theorem keys_records (h : UnsafeHash) : h.Keys.2.records = h.records := by
  unfold UnsafeHash.Keys
  by_cases hd : h.dirty <;> simp [hd]

theorem delete_records (h : UnsafeHash) (k : String) :
    (h.Delete k).records = mapErase h.records k := rfl

theorem indexInv_run (ops : List HOp) :
    ∀ h : UnsafeHash,
      (∀ kv ∈ h.records, 1 ≤ kv.2.meta.Index) →
      ∀ kv ∈ (ops.foldl applyHOp h).records, 1 ≤ kv.2.meta.Index := by
  induction ops with
  | nil => intro h hinv; simpa using hinv
  | cons op rest ih =>
      intro h hinv
      rw [List.foldl_cons]
      apply ih
      cases op with
      | opStore k r t =>
          intro kv hkv
          simp only [applyHOp, UnsafeHash.Store] at hkv
          rcases mem_mapInsert _ _ _ _ hkv with hmem | heq
          · exact hinv kv hmem
          · subst heq
            cases hm : mapLookup h.records k with
            | none => simp [hm]
            | some r0 =>
                have h0 := hinv (k, r0) (mapLookup_mem _ _ _ hm)
                simp only [hm]
                simp at h0 ⊢
                omega
      | opLoad k t => exact hinv
      | opDelete k =>
          intro kv hkv
          rw [applyHOp, delete_records] at hkv
          exact hinv kv (mem_mapErase _ _ _ hkv)
      | opKeys =>
          intro kv hkv
          rw [applyHOp, keys_records] at hkv
          exact hinv kv hkv

/-- Claim C7: starting from an absent key, after the n-th Store to that
key (with no intervening Delete) the stored record's `Index` equals n;
and over any sequence of hash-store operations from the fresh hash,
every record present in the map has `Index ≥ 1`. -/
theorem claim_C7 :
    (∀ (h : UnsafeHash) (key : String) (l : List (Record × Int))
        (r : Record),
        mapLookup h.records key = none →
        mapLookup (storeSeq h key l).records key = some r →
        r.meta.Index = l.length) ∧
    (∀ (ops : List HOp) (key : String) (r : Record),
        mapLookup (runHOps ops).records key = some r →
        1 ≤ r.meta.Index) := by
  constructor
  · intro h key l r habs hsome
    have h1 := storeSeq_recIndexAt key l h
    unfold recIndexAt at h1
    rw [habs, hsome] at h1
    simpa using h1
  · intro ops key r hsome
    exact indexInv_run ops newUnsafeHash (by simp [newUnsafeHash])
      (key, r) (mapLookup_mem _ _ _ hsome)

/-- Witness for C7: two Stores of "k" leave `Index = 2`; the record
reached by one Store has `Index ≥ 1`. -/
theorem claim_C7_witness :
    ({ meta := { Index := 2, ExpireTime := 0, AccessedAt := 0,
                 CreatedAt := 0, UpdatedAt := 1 },
       data := Data.val (.vInt 2) } : Record).meta.Index =
      ([(mkRec 1 0, (0 : Int)), (mkRec 2 0, 1)].length : Int) ∧
    (1 : Int) ≤
      ({ meta := { Index := 1, ExpireTime := 0, AccessedAt := 0,
                   CreatedAt := 0, UpdatedAt := 0 },
         data := Data.val (.vInt 1) } : Record).meta.Index :=
  ⟨claim_C7.1 newUnsafeHash "k" [(mkRec 1 0, 0), (mkRec 2 0, 1)] _ rfl rfl,
   claim_C7.2 [.opStore "k" (mkRec 1 0) 0] "k" _ rfl⟩

/-- Claim C8 counterexample: a key holding the empty (nil) datum is a
non-mapping value, but `RequestDictItem.Process` does not return
ErrConflict there — `reflect.TypeOf(nil).Kind()` is a method call on a
nil interface, a Go panic (`none`), so the claimed conflict error is
never produced at this input. -/
theorem claim_C8_cex :
    (mapLookup c8nStore.hashMap.records "N").map Record.data =
      some Data.null ∧
    RequestDictItem.Process c8nStore "N" (.vInt 3) 1 = none ∧
    (RequestDictItem.Process c8nStore "N" (.vInt 3) 1).map Prod.fst ≠
      some (.error (.errConflict ("N" ++ " is not a dictionary"))) :=
  ⟨rfl, rfl, by
    intro h
    simp [show RequestDictItem.Process c8nStore "N" (Value.vInt 3) 1 =
      none from rfl] at h⟩

/-- Claim C8, amended: `RequestDictItem.Process` against the shard — a
missing key yields ErrMissing; a key holding the empty (nil) datum makes
the reflect type switch panic (no error is returned); any other
non-mapping payload (scalar or list) yields ErrConflict "(key) is not a
dictionary"; an item whose type does not fit the mapping's key type
yields ErrConflict "item (item) is invalid"; a well-typed but absent
item yields ErrInternal "unexpected value at key (item)"; and a present
item yields the mapped value wrapped in the loaded record's metadata. -/
theorem claim_C8 :
    (∀ (s : StoreState) (rkey : String) (item : Value) (now : Int)
        (s' : StoreState),
        s.Load rkey now = (none, s') →
        RequestDictItem.Process s rkey item now =
          some (.error (.errMissing (rkey ++ " does not exist")), s')) ∧
    (∀ (s : StoreState) (rkey : String) (item : Value) (now : Int)
        (rec : Record) (s' : StoreState),
        s.Load rkey now = (some rec, s') → rec.data = .null →
        RequestDictItem.Process s rkey item now = none) ∧
    (∀ (s : StoreState) (rkey : String) (item : Value) (now : Int)
        (rec : Record) (s' : StoreState) (v : Value),
        s.Load rkey now = (some rec, s') → rec.data = .val v →
        RequestDictItem.Process s rkey item now =
          some (.error (.errConflict (rkey ++ " is not a dictionary")),
            s')) ∧
    (∀ (s : StoreState) (rkey : String) (item : Value) (now : Int)
        (rec : Record) (s' : StoreState) (l : List Value),
        s.Load rkey now = (some rec, s') → rec.data = .list l →
        RequestDictItem.Process s rkey item now =
          some (.error (.errConflict (rkey ++ " is not a dictionary")),
            s')) ∧
    (∀ (s : StoreState) (rkey : String) (item : Value) (now : Int)
        (rec : Record) (s' : StoreState) (kt : VTy)
        (es : List (Value × Value)),
        s.Load rkey now = (some rec, s') → rec.data = .dict kt es →
        item.ty ≠ kt →
        RequestDictItem.Process s rkey item now =
          some (.error (.errConflict ("item " ++ item.fmtV ++
            " is invalid")), s')) ∧
    (∀ (s : StoreState) (rkey : String) (item : Value) (now : Int)
        (rec : Record) (s' : StoreState) (kt : VTy)
        (es : List (Value × Value)),
        s.Load rkey now = (some rec, s') → rec.data = .dict kt es →
        item.ty = kt → entriesLookup es item = none →
        RequestDictItem.Process s rkey item now =
          some (.error (.errInternal ("unexpected value at key " ++
            item.fmtV)), s')) ∧
    (∀ (s : StoreState) (rkey : String) (item : Value) (now : Int)
        (rec : Record) (s' : StoreState) (kt : VTy)
        (es : List (Value × Value)) (v : Value),
        s.Load rkey now = (some rec, s') → rec.data = .dict kt es →
        item.ty = kt → entriesLookup es item = some v →
        RequestDictItem.Process s rkey item now =
          some (.ok { rec with data := .val v }, s')) := by
  refine ⟨?_, ?_, ?_, ?_, ?_, ?_, ?_⟩
  · intro s rkey item now s' hload
    simp [RequestDictItem.Process, hload]
  · intro s rkey item now rec s' hload hdata
    simp [RequestDictItem.Process, hload, hdata]
  · intro s rkey item now rec s' v hload hdata
    simp [RequestDictItem.Process, hload, hdata]
  · intro s rkey item now rec s' l hload hdata
    simp [RequestDictItem.Process, hload, hdata]
  · intro s rkey item now rec s' kt es hload hdata hty
    simp [RequestDictItem.Process, hload, hdata,
          RequestDictItem.mapIndex, hty]
  · intro s rkey item now rec s' kt es hload hdata hty hlk
    simp [RequestDictItem.Process, hload, hdata,
          RequestDictItem.mapIndex, hty, hlk]
  · intro s rkey item now rec s' kt es v hload hdata hty hlk
    simp [RequestDictItem.Process, hload, hdata,
          RequestDictItem.mapIndex, hty, hlk]

/-- Witness for the amended C8: all outcomes at concrete shards —
dictionary at "M" keyed by ints, scalar at "L", list at "S", nothing at
"Z", and the nil datum at "N". -/
theorem claim_C8_witness :
    RequestDictItem.Process c8Store "Z" (.vInt 3) 1 =
      some (.error (.errMissing ("Z" ++ " does not exist")), c8Store) ∧
    RequestDictItem.Process c8nStore "N" (.vInt 4) 1 = none ∧
    RequestDictItem.Process c8Store "L" (.vInt 3) 1 =
      some (.error (.errConflict ("L" ++ " is not a dictionary")),
        c8Store) ∧
    RequestDictItem.Process c8Store "S" (.vInt 3) 1 =
      some (.error (.errConflict ("S" ++ " is not a dictionary")),
        c8Store) ∧
    RequestDictItem.Process c8Store "M" (.vStr "a") 1 =
      some (.error (.errConflict ("item " ++ (Value.vStr "a").fmtV ++
        " is invalid")), c8Store) ∧
    RequestDictItem.Process c8Store "M" (.vInt 5) 1 =
      some (.error (.errInternal ("unexpected value at key " ++
        (Value.vInt 5).fmtV)), c8Store) ∧
    RequestDictItem.Process c8Store "M" (.vInt 3) 1 =
      some (.ok { c8RecM with data := .val (.vInt 4) }, c8Store) :=
  ⟨claim_C8.1 c8Store "Z" (.vInt 3) 1 c8Store rfl,
   claim_C8.2.1 c8nStore "N" (.vInt 4) 1 c8RecN c8nStore rfl rfl,
   claim_C8.2.2.1 c8Store "L" (.vInt 3) 1 c8RecL c8Store (.vInt 3)
     rfl rfl,
   claim_C8.2.2.2.1 c8Store "S" (.vInt 3) 1 c8RecS c8Store [.vInt 1]
     rfl rfl,
   claim_C8.2.2.2.2.1 c8Store "M" (.vStr "a") 1 c8RecM c8Store .int
     [(.vInt 3, .vInt 4)] rfl rfl (by decide),
   claim_C8.2.2.2.2.2.1 c8Store "M" (.vInt 5) 1 c8RecM c8Store .int
     [(.vInt 3, .vInt 4)] rfl rfl rfl rfl,
   claim_C8.2.2.2.2.2.2 c8Store "M" (.vInt 3) 1 c8RecM c8Store .int
     [(.vInt 3, .vInt 4)] (.vInt 4) rfl rfl rfl rfl⟩

/-- Claim C9: ring totality fails on an empty element set — `Find` on a
ring holding no elements returns no value (the element lookup is an
out-of-range access, a Go panic), and `Remove` of the sole remaining
element returns no value (repartition hits `i % 0`, an integer division
by zero, whenever the virtual table is non-empty). -/
theorem claim_C9 :
    (∀ (r : RingState) (hsh : Nat), r.elements = [] →
        r.Find hsh = none) ∧
    (∀ (r : RingState) (e : Nat), r.elements = [e] → r.virtual ≠ [] →
        r.Remove e = none) := by
  constructor
  · intro r hsh he
    unfold RingState.Find
    by_cases hp : r.numPartitions = 0
    · simp [hp]
    · simp only [hp, if_false, he]
      cases hv : r.virtual.get? (hsh % r.numPartitions) <;> simp [hv]
  · intro r e he hv
    unfold RingState.Remove RingState.repartition
    simp [he, removeFirst, List.isEmpty_iff, hv]

/-- Witness for C9 at concrete two-partition rings. -/
theorem claim_C9_witness :
    RingState.Find
      { numPartitions := 2, virtual := [0, 0], elements := [] } 7 =
      none ∧
    RingState.Remove
      { numPartitions := 2, virtual := [0, 0], elements := [0] } 0 =
      none :=
  ⟨claim_C9.1 _ 7 rfl, claim_C9.2 _ 0 rfl (by decide)⟩

/-- Claim C10: a Store on an existing key keeps `CreatedAt`, overwrites
`ExpireTime` with the argument's value, and (for a non-permanent result)
schedules the expiration cutoff `CreatedAt + ExpireTime` — so the TTL
clock runs from the key's first creation, not from the re-store. -/
theorem claim_C10 (s : StoreState) (key : String) (r0 rec : Record)
    (t : Int) (hprev : mapLookup s.hashMap.records key = some r0)
    (hd : 0 < rec.meta.ExpireTime) :
    (s.Store key rec t).1.meta.CreatedAt = r0.meta.CreatedAt ∧
    (s.Store key rec t).1.meta.ExpireTime = rec.meta.ExpireTime ∧
    (s.Store key rec t).2.1 =
      some (r0.meta.CreatedAt + rec.meta.ExpireTime) := by
  have hperm : decide (rec.meta.ExpireTime ≤ 0) = false :=
    decide_eq_false (by omega)
  simp [StoreState.Store, UnsafeHash.Store, hprev,
        Record.IsPermanent, hperm, Record.ExpiresAt]

/-- Witness for C10: re-store "k" (created at instant 0) with expiry 10
at instant 7; the scheduled cutoff is 0 + 10, not 7 + 10. -/
theorem claim_C10_witness :
    (c10Store.Store "k" (mkRec 2 10) 7).1.meta.CreatedAt =
      c10Rec.meta.CreatedAt ∧
    (c10Store.Store "k" (mkRec 2 10) 7).1.meta.ExpireTime =
      (mkRec 2 10).meta.ExpireTime ∧
    (c10Store.Store "k" (mkRec 2 10) 7).2.1 =
      some (c10Rec.meta.CreatedAt + (mkRec 2 10).meta.ExpireTime) :=
  claim_C10 c10Store "k" c10Rec (mkRec 2 10) 7 rfl (by decide)

end Memhashd
